import Mathlib

/-!
Verification of the FOOD-VISION-AI recipe application (src/app.py) against its
natural-language specification.

The Python code is shallowly embedded: Python strings are modelled as `List Char`
where character-level parsing matters (`str.strip`, `str.split`, `str.replace`)
and as `String` where only equality and byte order matter (store columns); the
SQLite table `saved_recipes` is modelled as a list of rows plus the
AUTOINCREMENT counter; calls to external services (Gemini vision and text
models, the YouTube search endpoint, the wall clock) are modelled as oracle
inputs describing the outcome of the call; an uncaught Python exception is
modelled by returning `Except.error`.
-/

namespace FoodVision

/-! ## Python string primitives -/

/-- The whitespace characters stripped by Python `str.strip()`. -/
def pyWS (c : Char) : Bool :=
  c == ' ' || c == '\t' || c == '\n' || c == '\r' || c == '\x0b' || c == '\x0c'

/-- Python `str.lstrip()`: drop leading whitespace. -/
def lstripW (l : List Char) : List Char := l.dropWhile pyWS

/-- Python `str.rstrip()`: drop trailing whitespace. -/
def rstripW : List Char → List Char
  | [] => []
  | c :: rest =>
    if rstripW rest = [] then (if pyWS c then [] else [c]) else c :: rstripW rest

/-- Python `str.strip()`: drop whitespace at both ends. -/
def pyStrip (l : List Char) : List Char := lstripW (rstripW l)

/-- Helper for `pySplit`: returns the chunk before the first separator and the
remaining chunks. -/
def pySplitAux (sep : Char) : List Char → List Char × List (List Char)
  | [] => ([], [])
  | c :: rest =>
    if c = sep then ([], (pySplitAux sep rest).1 :: (pySplitAux sep rest).2)
    else (c :: (pySplitAux sep rest).1, (pySplitAux sep rest).2)

/-- Python `str.split(sep)` for a one-character separator: splits at every
occurrence of `sep`, keeping empty chunks, and always returns at least one
chunk. -/
def pySplit (sep : Char) (l : List Char) : List (List Char) :=
  (pySplitAux sep l).1 :: (pySplitAux sep l).2

/-- Apply `f` to the last element of a list, if any. -/
def modifyLast {α : Type} (f : α → α) : List α → List α
  | [] => []
  | [x] => [f x]
  | x :: y :: t => x :: modifyLast f (y :: t)

/-- Python `line.replace(Char.ofNat 35, empty)` as used in `generate_recipe`:
removes every occurrence of the hash character, wherever it occurs. -/
def removeHash (l : List Char) : List Char := l.filter (fun c => c != '#')

/-! ## Vision Identifier (`identify_ingredients_from_image`, src/app.py:72-101) -/

/-- Outcome of the body of the `try` block: either the vision model call
produced a text response, or some exception was raised (invalid image, API
failure, blocked response, ...); the bare `except Exception` catches them all. -/
inductive VisionOutcome where
  | ok (text : List Char)
  | err (msg : List Char)

/-- User-visible side effects of the vision identifier. -/
structure VisionEffects where
  errorShown : Option (List Char)
deriving DecidableEq

/-- The error banner printed by the `except` branch. -/
def visionErrorMessage (m : List Char) : List Char :=
  "Error identifying ingredients: ".data ++ m

/-- `identify_ingredients_from_image`: on success, strips the response text and
splits it on commas, stripping each item; on any exception, shows an error and
returns the empty list. -/
def identify_ingredients_from_image (o : VisionOutcome) :
    VisionEffects × List (List Char) :=
  match o with
  | .ok t => (⟨none⟩, (pySplit ',' (pyStrip t)).map pyStrip)
  | .err m => (⟨some (visionErrorMessage m)⟩, [])

/-! ## Video Finder (`search_telugu_recipe_video`, src/app.py:103-126) -/

/-- Python exceptions that the embedded code can leave uncaught.
`duplicateWidgetId` is the error Streamlit raises when a second widget is
created with parameters identical to an existing one and no explicit key. -/
inductive PyExn where
  | indexError
  | duplicateWidgetId
  | uncaught (msg : String)
deriving DecidableEq

/-- Outcome of the YouTube search request: a successful response with a list
of video ids, an API failure raising `googleapiclient.errors.HttpError`, or any
other exception (transport error, timeout, ...), which is not an `HttpError`. -/
inductive SearchOutcome where
  | ok (videoIds : List String)
  | httpError (msg : String)
  | otherError (msg : String)

/-- User-visible side effects of the video finder. -/
structure SearchEffects where
  errorShown : Option String
deriving DecidableEq

/-- The error banner printed by the `except HttpError` branch. -/
def searchErrorMessage (m : String) : String := "Error searching YouTube: " ++ m

/-- Base of the canonical watch URL built from the first result. -/
def ytWatchBase : String := "https://www.youtube.com/watch?v="

/-- `search_telugu_recipe_video`: one search request; on success returns the
first result canonical URL or `none` when the result list is empty; an
`HttpError` is caught, reported and turned into `none`; any other exception
escapes the `except HttpError` clause and propagates to the caller
(`Except.error`). -/
def search_telugu_recipe_video (o : SearchOutcome) :
    Except PyExn (SearchEffects × Option String) :=
  match o with
  | .ok [] => .ok (⟨none⟩, none)
  | .ok (v :: _) => .ok (⟨none⟩, some (ytWatchBase ++ v))
  | .httpError m => .ok (⟨some (searchErrorMessage m)⟩, none)
  | .otherError m => .error (.uncaught m)

/-! ## Title extraction (`generate_recipe`, src/app.py:203-205) -/

/-- The caller-side title extraction: `recipe_lines = result.split(newline)[:2]`
followed by `recipe_lines[0].replace(hash, empty).strip()` and the same for
`recipe_lines[1]`. When the generated text has a single line, the subscript
`recipe_lines[1]` raises an uncaught `IndexError`. -/
def extractTitles (result : List Char) : Except PyExn (List Char × List Char) :=
  match (pySplit '\n' result).take 2 with
  | l0 :: l1 :: _ => .ok (pyStrip (removeHash l0), pyStrip (removeHash l1))
  | _ => .error .indexError

/-- Modelled from the spec wording of claim C6, for comparison with the code:
take the first two lines and strip only the leading markup markers and the
surrounding whitespace from each. -/
def extractTitlesSpecLeading (result : List Char) :
    Except PyExn (List Char × List Char) :=
  match (pySplit '\n' result).take 2 with
  | l0 :: l1 :: _ =>
      .ok (pyStrip (l0.dropWhile (fun c => c == '#')),
           pyStrip (l1.dropWhile (fun c => c == '#')))
  | _ => .error .indexError

/-! ## Generate page control flow (`generate_recipe`, src/app.py:128-235) -/

/-- Which observable actions the Generate page performed on one run. -/
structure GenEffects where
  warnedUploadFirst : Bool
  calledTextGen : Bool
  extractedTitles : Bool
  calledVideoSearch : Bool
  savedRecipe : Bool
deriving DecidableEq

/-- The branch structure around the Generate button: the first
`st.button("Generate Recipe")` call (the `if` at src/app.py:166) registers the
widget and is modelled as the oracle `genClicked`; `identified_ingredients` is
the list produced by the vision step, `genResult` is the outcome of
`safe_generate_content` (`none` when it caught an error and returned `None`),
and Python truthiness of lists and strings is modelled by emptiness tests.
The main branch runs generation, title extraction, video search and the
optional save.  When the ingredient list is empty the `elif`
(src/app.py:234) evaluates a second `st.button("Generate Recipe")` with
parameters identical to the first and no explicit key; Streamlit rejects the
duplicate widget registration by raising `DuplicateWidgetID` during the
condition, before `st.warning` can run, so that path terminates with an
uncaught error whether or not the button was clicked.  With a nonempty
ingredient list and no click, the `elif` short-circuits before the second
`st.button` call and nothing happens. -/
def generateClickFlow (genClicked : Bool) (ingredients : List (List Char))
    (genResult : Option (List Char)) (videoOutcome : SearchOutcome)
    (saveClicked : Bool) : Except PyExn GenEffects :=
  if genClicked = true ∧ ingredients ≠ [] then
    match genResult with
    | none => .ok ⟨false, true, false, false, false⟩
    | some t =>
      if t = [] then .ok ⟨false, true, false, false, false⟩
      else
        match extractTitles t with
        | .error e => .error e
        | .ok _ =>
          match search_telugu_recipe_video videoOutcome with
          | .error e => .error e
          | .ok _ => .ok ⟨false, true, true, true, saveClicked⟩
  else if ingredients = [] then
    .error .duplicateWidgetId
  else
    .ok ⟨false, false, false, false, false⟩

/-! ## Recipe Store (table `saved_recipes`, src/app.py:55-70, 218-296) -/

/-- One row of the `saved_recipes` table. -/
structure RecipeRow where
  id : Nat
  recipe_name : String
  recipe_name_telugu : String
  region : String
  ingredients : String
  instructions : String
  video_link : Option String
  created_date : String
deriving DecidableEq

/-- The payload of an INSERT: every column except the auto-assigned id. -/
structure RecipeData where
  recipe_name : String
  recipe_name_telugu : String
  region : String
  ingredients : String
  instructions : String
  video_link : Option String
  created_date : String
deriving DecidableEq

/-- The database state: the stored rows plus the AUTOINCREMENT counter, which
never decreases and is never reused (the schema declares
`id INTEGER PRIMARY KEY AUTOINCREMENT`). -/
structure Store where
  rows : List RecipeRow
  nextId : Nat
deriving DecidableEq

/-- A fresh database: no rows, first id is 1. -/
def Store.empty : Store := ⟨[], 1⟩

/-- Attach an id to an insert payload. -/
def RecipeData.toRow (d : RecipeData) (i : Nat) : RecipeRow :=
  ⟨i, d.recipe_name, d.recipe_name_telugu, d.region, d.ingredients,
    d.instructions, d.video_link, d.created_date⟩

/-- The INSERT at src/app.py:219-226: appends a row under the next id and
returns the assigned id. -/
def Store.insert (s : Store) (d : RecipeData) : Store × Nat :=
  (⟨s.rows ++ [d.toRow s.nextId], s.nextId + 1⟩, s.nextId)

/-- `SELECT ... FROM saved_recipes WHERE id = ?` with `fetchone`. -/
def Store.getRow (s : Store) (i : Nat) : Option RecipeRow :=
  s.rows.find? (fun r => r.id == i)

/-- `DELETE FROM saved_recipes WHERE id = ?` (src/app.py:290-296). -/
def Store.delete (s : Store) (i : Nat) : Store :=
  ⟨s.rows.filter (fun r => r.id != i), s.nextId⟩

/-- Byte order on text, as used by `ORDER BY created_date DESC` (SQLite
compares TEXT values bytewise under the default BINARY collation). -/
def bytesLe : List Char → List Char → Bool
  | [], _ => true
  | _ :: _, [] => false
  | a :: as, b :: bs => if a = b then bytesLe as bs else decide (a < b)

/-- Strict byte order on text. -/
def bytesLt : List Char → List Char → Bool
  | [], [] => false
  | [], _ :: _ => true
  | _ :: _, [] => false
  | a :: as, b :: bs => if a = b then bytesLt as bs else decide (a < b)

/-- Row comparison used by `ORDER BY created_date DESC`: `a` may come before
`b` exactly when the created date of `b` is at most that of `a`. -/
def createdDesc (a b : RecipeRow) : Prop :=
  bytesLe b.created_date.data a.created_date.data = true

instance : DecidableRel createdDesc :=
  fun a b =>
    inferInstanceAs (Decidable (bytesLe b.created_date.data a.created_date.data = true))

instance : IsTotal RecipeRow createdDesc :=
  ⟨by
    have key : ∀ x y : List Char, bytesLe x y = true ∨ bytesLe y x = true := by
      intro x
      induction x with
      | nil => intro y; exact Or.inl rfl
      | cons a as ih =>
        intro y
        cases y with
        | nil => exact Or.inr rfl
        | cons b bs =>
          by_cases hab : a = b
          · subst hab
            rcases ih bs with h | h
            · exact Or.inl (by simp [bytesLe, h])
            · exact Or.inr (by simp [bytesLe, h])
          · rcases lt_or_gt_of_ne hab with h | h
            · exact Or.inl (by simp [bytesLe, hab, h])
            · exact Or.inr (by simp [bytesLe, Ne.symm hab, h])
    intro a b
    rcases key b.created_date.data a.created_date.data with h | h
    · exact Or.inl h
    · exact Or.inr h⟩

instance : IsTrans RecipeRow createdDesc :=
  ⟨by
    have key : ∀ x y z : List Char,
        bytesLe x y = true → bytesLe y z = true → bytesLe x z = true := by
      intro x
      induction x with
      | nil => intro y z _ _; rfl
      | cons a as ih =>
        intro y z hxy hyz
        cases y with
        | nil => simp [bytesLe] at hxy
        | cons b bs =>
          cases z with
          | nil => simp [bytesLe] at hyz
          | cons c cs =>
            by_cases hab : a = b <;> by_cases hbc : b = c
            · subst hab; subst hbc
              simp only [bytesLe, if_pos rfl] at hxy hyz ⊢
              exact ih bs cs hxy hyz
            · subst hab
              simp only [bytesLe, if_pos rfl, if_neg hbc] at hyz ⊢
              exact hyz
            · subst hbc
              simp only [bytesLe, if_neg hab] at hxy ⊢
              exact hxy
            · simp only [bytesLe, if_neg hab, if_neg hbc, decide_eq_true_eq] at hxy hyz
              have hac : a < c := lt_trans hxy hyz
              simp [bytesLe, ne_of_lt hac, hac]
    intro a b c hab hbc
    exact key c.created_date.data b.created_date.data a.created_date.data hbc hab⟩

/-- `SELECT ... FROM saved_recipes ORDER BY created_date DESC` with `fetchall`
(src/app.py:241-247): every row, sorted by created date, newest first. -/
def Store.listAll (s : Store) : List RecipeRow :=
  s.rows.insertionSort createdDesc

/-- Result of `view_recipe_details` (src/app.py:270-288): either the selected
columns of the matching row, or the branch showing the error banner
`Recipe not found!`. -/
inductive ViewResult where
  | found (name nameTelugu instrText : String) (video : Option String)
  | notFound
deriving DecidableEq

/-- `view_recipe_details`: fetch by id and render, or report not found. -/
def viewRecipeDetails (s : Store) (i : Nat) : ViewResult :=
  match s.getRow i with
  | some r => .found r.recipe_name r.recipe_name_telugu r.instructions r.video_link
  | none => .notFound

/-- The store operations that mutate state (reads are pure functions). -/
inductive StoreOp where
  | ins (d : RecipeData)
  | del (i : Nat)

/-- Apply one mutating operation. -/
def applyOp (s : Store) : StoreOp → Store
  | .ins d => (s.insert d).1
  | .del i => s.delete i

/-- The ids handed out by the inserts of an operation sequence, in order,
starting from store `s`. -/
def assignedIds : Store → List StoreOp → List Nat
  | _, [] => []
  | s, .ins d :: rest => (s.insert d).2 :: assignedIds (s.insert d).1 rest
  | s, .del i :: rest => assignedIds (s.delete i) rest

/-- The wall-clock timestamps supplied to the inserts of an operation
sequence, in order (the code stores `datetime.now().strftime(...)` verbatim). -/
def insTimestamps : List StoreOp → List String
  | [] => []
  | .ins d :: rest => d.created_date :: insTimestamps rest
  | .del _ :: rest => insTimestamps rest

/-- The created dates actually read back (via `getRow` on the id just
assigned) right after each insert of an operation sequence. -/
def recordedDates : Store → List StoreOp → List String
  | _, [] => []
  | s, .ins d :: rest =>
      (((s.insert d).1.getRow (s.insert d).2).map
        (fun r => r.created_date)).getD "" ::
        recordedDates (s.insert d).1 rest
  | s, .del i :: rest => recordedDates (s.delete i) rest

/-- Store invariant: every stored id is below the AUTOINCREMENT counter. -/
def Store.wf (s : Store) : Prop := ∀ r ∈ s.rows, r.id < s.nextId

/-- Run a sequence of inserts on a fresh database. -/
def runInserts (ds : List RecipeData) : Store :=
  ds.foldl (fun t d => (t.insert d).1) Store.empty

/-! ## Concrete data used by the witnesses -/

/-- A sample insert payload with no video link. -/
def dEx1 : RecipeData :=
  ⟨"Pesarattu", "Telugu Pesarattu", "Andhra", "moong dal (1 cup), ginger",
    "## Ingredients", none, "2026-01-02 10:00:00"⟩

/-- A sample insert payload with a video link. -/
def dEx2 : RecipeData :=
  ⟨"Upma", "Telugu Upma", "South Indian", "rava (1 cup)",
    "## Instructions", some "https://www.youtube.com/watch?v=abc123",
    "2026-01-02 11:00:00"⟩

/-- A sample store holding one row. -/
def sEx : Store := ⟨[dEx1.toRow 1], 2⟩

/-- A sample store holding two rows. -/
def sEx2 : Store := ⟨[dEx1.toRow 1, dEx2.toRow 2], 3⟩

/-- A sample operation sequence: insert, delete, insert. -/
def opsEx : List StoreOp := [.ins dEx1, .del 1, .ins dEx2]

/-- A sample generated text whose first line contains an interior hash mark. -/
def c6Input : List Char := "# Chicken #65 Fry\n# Kodi Vepudu\n\n## Ingredients".data

/-- A sample generated text for the amended-C6 witness. -/
def c6wInput : List Char := "# Dosa\n# Telugu Dosa\nbody".data

/-! ## Lemmas about the Python string primitives -/

theorem lstripW_cons (c : Char) (l : List Char) :
    lstripW (c :: l) = if pyWS c then lstripW l else c :: l := by
  simp [lstripW, List.dropWhile_cons]

theorem lstripW_idem (l : List Char) : lstripW (lstripW l) = lstripW l := by
  induction l with
  | nil => rfl
  | cons c rest ih =>
    by_cases h : pyWS c
    · simp [lstripW_cons, h, ih]
    · simp [lstripW_cons, h]

theorem rstripW_nil_all {l : List Char} (h : rstripW l = []) :
    ∀ c ∈ l, pyWS c = true := by
  induction l with
  | nil => intro c hc; cases hc
  | cons a rest ih =>
    simp only [rstripW] at h
    by_cases hr : rstripW rest = []
    · rw [if_pos hr] at h
      by_cases ha : pyWS a
      · intro c hc
        rcases List.mem_cons.1 hc with rfl | hc
        · exact ha
        · exact ih hr c hc
      · rw [if_neg ha] at h; cases h
    · rw [if_neg hr] at h; cases h

theorem rstripW_idem (l : List Char) : rstripW (rstripW l) = rstripW l := by
  induction l with
  | nil => rfl
  | cons a rest ih =>
    simp only [rstripW]
    by_cases hr : rstripW rest = []
    · rw [if_pos hr]
      by_cases ha : pyWS a
      · rw [if_pos ha]; rfl
      · rw [if_neg ha]
        simp [rstripW, ha]
    · rw [if_neg hr]
      simp only [rstripW]
      rw [ih, if_neg hr]

theorem lstrip_all_nil {l : List Char} (h : ∀ c ∈ l, pyWS c = true) :
    lstripW l = [] := by
  simp only [lstripW, List.dropWhile_eq_nil_iff]
  exact h

theorem strip_comm (l : List Char) : lstripW (rstripW l) = rstripW (lstripW l) := by
  induction l with
  | nil => rfl
  | cons a rest ih =>
    by_cases hr : rstripW rest = []
    · by_cases ha : pyWS a
      · rw [show rstripW (a :: rest) = [] from by simp [rstripW, hr, ha],
          lstripW_cons, if_pos ha, lstrip_all_nil (rstripW_nil_all hr)]
        rfl
      · rw [show rstripW (a :: rest) = [a] from by simp [rstripW, hr, ha],
          lstripW_cons, if_neg ha, lstripW_cons, if_neg ha]
        simp [rstripW, hr, ha]
    · by_cases ha : pyWS a
      · rw [show rstripW (a :: rest) = a :: rstripW rest from by simp [rstripW, hr],
          lstripW_cons, if_pos ha, lstripW_cons, if_pos ha, ih]
      · rw [show rstripW (a :: rest) = a :: rstripW rest from by simp [rstripW, hr],
          lstripW_cons, if_neg ha, lstripW_cons, if_neg ha]
        simp [rstripW, hr]

theorem pyStrip_lstrip (l : List Char) : pyStrip (lstripW l) = pyStrip l := by
  show lstripW (rstripW (lstripW l)) = lstripW (rstripW l)
  rw [← strip_comm, lstripW_idem]

theorem pyStrip_rstrip (l : List Char) : pyStrip (rstripW l) = pyStrip l := by
  show lstripW (rstripW (rstripW l)) = lstripW (rstripW l)
  rw [rstripW_idem]

theorem pySplitAux_lstrip (sep : Char) (hsep : pyWS sep = false) (l : List Char) :
    pySplitAux sep (lstripW l) =
      (lstripW (pySplitAux sep l).1, (pySplitAux sep l).2) := by
  induction l with
  | nil => rfl
  | cons c rest ih =>
    by_cases hc : pyWS c
    · have hcs : c ≠ sep := fun h => by rw [h, hsep] at hc; cases hc
      rw [lstripW_cons, if_pos hc, ih]
      simp [pySplitAux, hcs, lstripW_cons, hc]
    · rw [lstripW_cons, if_neg hc]
      by_cases hcs : c = sep
      · simp [pySplitAux, hcs, lstripW]
      · simp [pySplitAux, hcs, lstripW_cons, hc]

theorem pySplitAux_snd_nil (sep : Char) (l : List Char)
    (h : (pySplitAux sep l).2 = []) : (pySplitAux sep l).1 = l := by
  induction l with
  | nil => rfl
  | cons c rest ih =>
    by_cases hc : c = sep
    · simp [pySplitAux, hc] at h
    · simp only [pySplitAux, if_neg hc] at h ⊢
      rw [ih h]

theorem pySplitAux_no_sep (sep : Char) (l : List Char)
    (h : ∀ c ∈ l, c ≠ sep) : pySplitAux sep l = (l, []) := by
  induction l with
  | nil => rfl
  | cons c rest ih =>
    have hc : c ≠ sep := h c (List.mem_cons_self c rest)
    have hrest : ∀ x ∈ rest, x ≠ sep := fun x hx => h x (List.mem_cons_of_mem c hx)
    simp [pySplitAux, hc, ih hrest]

theorem pySplitAux_rstrip_nil (sep : Char) (hsep : pyWS sep = false)
    {l : List Char} (h : rstripW l = []) : pySplitAux sep l = (l, []) :=
  pySplitAux_no_sep sep l fun c hc heq => by
    have hw := rstripW_nil_all h c hc
    rw [heq, hsep] at hw
    cases hw

theorem pySplit_rstrip (sep : Char) (hsep : pyWS sep = false) (l : List Char) :
    pySplit sep (rstripW l) = modifyLast rstripW (pySplit sep l) := by
  induction l with
  | nil => rfl
  | cons c rest ih =>
    by_cases hr : rstripW rest = []
    · have haux : pySplitAux sep rest = (rest, []) := pySplitAux_rstrip_nil sep hsep hr
      by_cases hcw : pyWS c
      · have hcs : c ≠ sep := fun h => by rw [h, hsep] at hcw; cases hcw
        rw [show rstripW (c :: rest) = [] from by simp [rstripW, hr, hcw]]
        simp [pySplit, pySplitAux, hcs, haux, modifyLast, rstripW, hr, hcw]
      · by_cases hcs : c = sep
        · subst hcs
          rw [show rstripW (c :: rest) = [c] from by simp [rstripW, hr, hcw]]
          simp [pySplit, pySplitAux, haux, modifyLast, hr]
        · rw [show rstripW (c :: rest) = [c] from by simp [rstripW, hr, hcw]]
          simp [pySplit, pySplitAux, hcs, haux, modifyLast, rstripW, hr, hcw]
    · rw [show rstripW (c :: rest) = c :: rstripW rest from by simp [rstripW, hr]]
      by_cases hcs : c = sep
      · simp only [pySplit, pySplitAux, if_pos hcs]
        rw [show modifyLast rstripW
            ([] :: (pySplitAux sep rest).1 :: (pySplitAux sep rest).2) =
            [] :: modifyLast rstripW
              ((pySplitAux sep rest).1 :: (pySplitAux sep rest).2) from rfl]
        rw [show ((pySplitAux sep rest).1 :: (pySplitAux sep rest).2) =
            pySplit sep rest from rfl, ← ih]
        rfl
      · rcases hsnd : (pySplitAux sep rest).2 with _ | ⟨y, t⟩
        · have hfst : (pySplitAux sep rest).1 = rest := pySplitAux_snd_nil sep rest hsnd
          have hih : pySplit sep (rstripW rest) = [rstripW rest] := by
            rw [ih]
            simp [pySplit, hsnd, modifyLast, hfst]
          have hA : (pySplitAux sep (rstripW rest)).1 = rstripW rest ∧
              (pySplitAux sep (rstripW rest)).2 = [] := by
            have h2 := hih
            simp only [pySplit, List.cons.injEq] at h2
            exact h2
          simp only [pySplit, pySplitAux, if_neg hcs, hA.1, hA.2, hsnd, hfst]
          simp only [modifyLast, List.cons.injEq]
          constructor
          · simp [rstripW, hr]
          · trivial
        · have hih := ih
          simp only [pySplit, hsnd, modifyLast, List.cons.injEq] at hih
          simp only [pySplit, pySplitAux, if_neg hcs, hsnd, hih.1, hih.2, modifyLast]

theorem modifyLast_map_pyStrip (L : List (List Char)) :
    (modifyLast rstripW L).map pyStrip = L.map pyStrip := by
  induction L with
  | nil => rfl
  | cons x t ih =>
    cases t with
    | nil => simp [modifyLast, pyStrip_rstrip]
    | cons y t2 =>
      simp only [modifyLast, List.map_cons]
      rw [show (modifyLast rstripW (y :: t2)).map pyStrip =
        ((y :: t2).map pyStrip) from ih]
      simp

theorem pySplit_map_strip_lstrip (sep : Char) (hsep : pyWS sep = false)
    (l : List Char) :
    (pySplit sep (lstripW l)).map pyStrip = (pySplit sep l).map pyStrip := by
  simp [pySplit, pySplitAux_lstrip sep hsep l, pyStrip_lstrip]

theorem pySplit_map_strip_strip (sep : Char) (hsep : pyWS sep = false)
    (l : List Char) :
    (pySplit sep (pyStrip l)).map pyStrip = (pySplit sep l).map pyStrip := by
  have h0 : pySplit sep (pyStrip l) = pySplit sep (lstripW (rstripW l)) := rfl
  rw [h0, pySplit_map_strip_lstrip sep hsep (rstripW l), pySplit_rstrip sep hsep l,
    modifyLast_map_pyStrip]

/-! ## Lemmas about the Recipe Store -/

theorem wf_empty : Store.empty.wf := by
  intro r hr
  cases hr

theorem getRow_insert (s : Store) (d : RecipeData) (hwf : s.wf) :
    (s.insert d).1.getRow (s.insert d).2 = some (d.toRow s.nextId) := by
  show ((s.rows ++ [d.toRow s.nextId]).find? (fun r => r.id == s.nextId)) = _
  rw [List.find?_append]
  have h1 : s.rows.find? (fun r => r.id == s.nextId) = none := by
    rw [List.find?_eq_none]
    intro r hr
    simp only [beq_iff_eq]
    exact Nat.ne_of_lt (hwf r hr)
  rw [h1]
  simp [List.find?, RecipeData.toRow]

theorem wf_insert (s : Store) (d : RecipeData) (hwf : s.wf) : (s.insert d).1.wf := by
  intro r hr
  rcases List.mem_append.1 hr with h | h
  · exact Nat.lt_succ_of_lt (hwf r h)
  · rcases List.mem_singleton.1 h with rfl
    exact Nat.lt_succ_self _

theorem wf_delete (s : Store) (i : Nat) (hwf : s.wf) : (s.delete i).wf := by
  intro r hr
  exact hwf r (List.mem_filter.1 hr).1

theorem recordedDates_eq (ops : List StoreOp) :
    ∀ s : Store, s.wf → recordedDates s ops = insTimestamps ops := by
  induction ops with
  | nil => intro s _; rfl
  | cons op rest ih =>
    intro s hwf
    cases op with
    | ins d =>
      simp only [recordedDates, insTimestamps]
      rw [getRow_insert s d hwf, ih _ (wf_insert s d hwf)]
      rfl
    | del i =>
      simp only [recordedDates, insTimestamps]
      exact ih _ (wf_delete s i hwf)

theorem assignedIds_bounds (ops : List StoreOp) :
    ∀ s : Store, (∀ i ∈ assignedIds s ops, s.nextId ≤ i) ∧
      (assignedIds s ops).Pairwise (fun a b => a < b) := by
  induction ops with
  | nil =>
    intro s
    exact ⟨fun i hi => absurd hi (List.not_mem_nil i), List.Pairwise.nil⟩
  | cons op rest ih =>
    intro s
    cases op with
    | ins d =>
      have h := ih (s.insert d).1
      constructor
      · intro i hi
        rcases List.mem_cons.1 hi with rfl | hi2
        · exact Nat.le_refl _
        · exact Nat.le_of_succ_le (h.1 i hi2)
      · refine List.Pairwise.cons ?_ h.2
        intro b hb
        exact Nat.lt_of_succ_le (h.1 b hb)
    | del i =>
      have h := ih (s.delete i)
      exact ⟨fun j hj => h.1 j hj, h.2⟩

theorem runInserts_created (ds : List RecipeData) :
    ∀ s : Store,
      ((ds.foldl (fun t d => (t.insert d).1) s).rows).map (fun r => r.created_date) =
        s.rows.map (fun r => r.created_date) ++ ds.map (fun d => d.created_date) := by
  induction ds with
  | nil => intro s; simp
  | cons d rest ih =>
    intro s
    simp only [List.foldl_cons, List.map_cons]
    rw [ih ((s.insert d).1)]
    simp [Store.insert, RecipeData.toRow]

theorem bytesLt_of_le_of_ne :
    ∀ x y : List Char, bytesLe x y = true → x ≠ y → bytesLt x y = true := by
  intro x
  induction x with
  | nil =>
    intro y _ hne
    cases y with
    | nil => exact absurd rfl hne
    | cons b bs => rfl
  | cons a as ih =>
    intro y hle hne
    cases y with
    | nil => simp [bytesLe] at hle
    | cons b bs =>
      by_cases hab : a = b
      · subst hab
        have hne2 : as ≠ bs := fun h => hne (by rw [h])
        simp only [bytesLe, if_pos rfl] at hle
        simp only [bytesLt, if_pos rfl]
        exact ih bs hle hne2
      · simp only [bytesLe, if_neg hab] at hle
        simp only [bytesLt, if_neg hab]
        exact hle

/-! ## The claims -/

/-- Claim C1: for every image submitted to the Vision Identifier, either the
call succeeds and the result is the model text response split on commas with
each item whitespace-trimmed (the code additionally strips the whole response
first, which is absorbed by the per-item trimming), or any error during the
call is surfaced as a user-visible message and the empty list is returned; the
bare `except Exception` means no outcome terminates with an unhandled
failure. -/
theorem c1_vision_identify_total (o : VisionOutcome) :
    (∃ t, o = VisionOutcome.ok t ∧
      identify_ingredients_from_image o =
        (⟨none⟩, (pySplit ',' t).map pyStrip)) ∨
    (∃ m, o = VisionOutcome.err m ∧
      identify_ingredients_from_image o =
        (⟨some (visionErrorMessage m)⟩, [])) := by
  cases o with
  | ok t =>
    refine Or.inl ⟨t, rfl, ?_⟩
    have h0 : identify_ingredients_from_image (VisionOutcome.ok t) =
        (⟨none⟩, (pySplit ',' (pyStrip t)).map pyStrip) := rfl
    rw [h0, pySplit_map_strip_strip ',' (by decide) t]
  | err m => exact Or.inr ⟨m, rfl, rfl⟩

/-- Claim C2, counterexample: the claim says any transport or API error is
turned into an absent result and never propagated, but the code catches only
`HttpError`; an exception that is not an `HttpError` (for instance a transport
failure of the underlying socket) escapes the function instead of yielding
`none`. -/
theorem c2_counterexample :
    search_telugu_recipe_video (SearchOutcome.otherError "connection reset") =
      Except.error (PyExn.uncaught "connection reset") := rfl

/-- Claim C2, amended: the Video Finder returns the first result canonical
watch URL; it returns `none` when the result list is empty or when the call
fails with an `HttpError` (which is reported and not retried); any other
exception propagates to the caller uncaught. -/
theorem c2_video_finder_amended (o : SearchOutcome) :
    (∃ v vs, o = SearchOutcome.ok (v :: vs) ∧
      search_telugu_recipe_video o =
        Except.ok (⟨none⟩, some (ytWatchBase ++ v))) ∨
    (o = SearchOutcome.ok [] ∧
      search_telugu_recipe_video o = Except.ok (⟨none⟩, none)) ∨
    (∃ m, o = SearchOutcome.httpError m ∧
      search_telugu_recipe_video o =
        Except.ok (⟨some (searchErrorMessage m)⟩, none)) ∨
    (∃ m, o = SearchOutcome.otherError m ∧
      search_telugu_recipe_video o = Except.error (PyExn.uncaught m)) := by
  cases o with
  | ok items =>
    cases items with
    | nil => exact Or.inr (Or.inl ⟨rfl, rfl⟩)
    | cons v vs => exact Or.inl ⟨v, vs, rfl, rfl⟩
  | httpError m => exact Or.inr (Or.inr (Or.inl ⟨m, rfl, rfl⟩))
  | otherError m => exact Or.inr (Or.inr (Or.inr ⟨m, rfl, rfl⟩))

/-- Claim C3: inserting a recipe and fetching the returned id yields a row
whose columns all equal what was inserted; since `video_link` is stored as an
`Option`, inserting an absent link reads back as absent, never as an empty
string. -/
theorem c3_insert_get_roundtrip (s : Store) (d : RecipeData) (hwf : s.wf) :
    (s.insert d).1.getRow (s.insert d).2 =
      some ⟨(s.insert d).2, d.recipe_name, d.recipe_name_telugu, d.region,
        d.ingredients, d.instructions, d.video_link, d.created_date⟩ :=
  getRow_insert s d hwf

/-- Claim C3, witness: a concrete insert into the empty store with an absent
video link reads back with every field intact and `video_link = none`. -/
theorem c3_witness :
    (Store.empty.insert dEx1).1.getRow (Store.empty.insert dEx1).2 =
      some ⟨(Store.empty.insert dEx1).2, dEx1.recipe_name, dEx1.recipe_name_telugu,
        dEx1.region, dEx1.ingredients, dEx1.instructions, dEx1.video_link,
        dEx1.created_date⟩ ∧
    ((Store.empty.insert dEx1).1.getRow (Store.empty.insert dEx1).2).map
      (fun r => r.video_link) = some none := by
  have h := c3_insert_get_roundtrip Store.empty dEx1 (by intro r hr; cases hr)
  exact ⟨h, by rw [h]; rfl⟩

/-- Claim C4: after any sequence of inserts whose timestamps are pairwise
distinct, the Saved Recipes query returns exactly the stored rows (a
permutation: no pagination or truncation) ordered strictly by created date
descending under the byte order SQLite uses for TEXT. -/
theorem c4_list_all_sorted (ds : List RecipeData)
    (hdist : (ds.map (fun d => d.created_date)).Pairwise (fun a b => a ≠ b)) :
    List.Perm (Store.listAll (runInserts ds)) (runInserts ds).rows ∧
    (Store.listAll (runInserts ds)).Pairwise
      (fun a b => bytesLt b.created_date.data a.created_date.data = true) := by
  have hperm : List.Perm (Store.listAll (runInserts ds)) (runInserts ds).rows :=
    List.perm_insertionSort createdDesc _
  refine ⟨hperm, ?_⟩
  have hsorted : (Store.listAll (runInserts ds)).Pairwise createdDesc :=
    List.sorted_insertionSort createdDesc _
  have hkeys : (runInserts ds).rows.Pairwise
      (fun a b => a.created_date ≠ b.created_date) := by
    have hmap : ((runInserts ds).rows.map (fun r => r.created_date)).Pairwise
        (fun a b => a ≠ b) := by
      have heq := runInserts_created ds Store.empty
      rw [show runInserts ds = ds.foldl (fun t d => (t.insert d).1) Store.empty
        from rfl, heq]
      simpa [Store.empty] using hdist
    exact (List.pairwise_map).1 hmap
  have hkeys2 : (Store.listAll (runInserts ds)).Pairwise
      (fun a b => a.created_date ≠ b.created_date) := by
    refine (List.Perm.pairwise_iff ?_ hperm).2 hkeys
    intro u v h he
    exact h he.symm
  refine (hsorted.and hkeys2).imp ?_
  intro a b hab
  refine bytesLt_of_le_of_ne _ _ hab.1 ?_
  intro hdata
  exact hab.2 (String.ext hdata).symm

/-- Claim C4, witness: two concrete inserts with distinct timestamps. -/
theorem c4_witness :
    List.Perm (Store.listAll (runInserts [dEx1, dEx2])) (runInserts [dEx1, dEx2]).rows ∧
    (Store.listAll (runInserts [dEx1, dEx2])).Pairwise
      (fun a b => bytesLt b.created_date.data a.created_date.data = true) :=
  c4_list_all_sorted [dEx1, dEx2] (by decide)

/-- Claim C5: after deleting an id, the detail view on that id takes the
`Recipe not found!` branch; deleting an id with no matching row leaves the
store unchanged (the model is a total function, so no error is possible). -/
theorem c5_delete_then_get (s : Store) (i : Nat) :
    viewRecipeDetails (s.delete i) i = ViewResult.notFound ∧
    (i ∉ s.rows.map (fun r => r.id) → s.delete i = s) := by
  constructor
  · have hnone : (s.delete i).getRow i = none := by
      show (s.rows.filter (fun r => r.id != i)).find? (fun r => r.id == i) = none
      rw [List.find?_eq_none]
      intro r hr
      have h2 := (List.mem_filter.1 hr).2
      simpa using h2
    unfold viewRecipeDetails
    rw [hnone]
  · intro hni
    show (⟨s.rows.filter (fun r => r.id != i), s.nextId⟩ : Store) = s
    have hflt : s.rows.filter (fun r => r.id != i) = s.rows := by
      rw [List.filter_eq_self]
      intro r hr
      simp only [bne_iff_ne, ne_eq]
      intro h
      exact hni (h ▸ List.mem_map_of_mem (fun r => r.id) hr)
    rw [hflt]

/-- Claim C5, witness: deleting the absent id 5 from a one-row store is a
no-op and the subsequent detail view reports not-found. -/
theorem c5_witness :
    viewRecipeDetails (sEx.delete 5) 5 = ViewResult.notFound ∧
    sEx.delete 5 = sEx :=
  ⟨(c5_delete_then_get sEx 5).1, (c5_delete_then_get sEx 5).2 (by decide)⟩

/-- Claim C6, counterexample: the claim says title extraction strips only
leading markup markers, but `replace` removes every hash character in the
line; on a first line containing an interior hash (`# Chicken #65 Fry`) the
code produces `Chicken 65 Fry` while the spec-described extraction produces
`Chicken #65 Fry`. -/
theorem c6_counterexample :
    extractTitles c6Input =
      Except.ok ("Chicken 65 Fry".data, "Kodi Vepudu".data) ∧
    extractTitlesSpecLeading c6Input =
      Except.ok ("Chicken #65 Fry".data, "Kodi Vepudu".data) ∧
    ("Chicken 65 Fry".data : List Char) ≠ "Chicken #65 Fry".data :=
  ⟨rfl, rfl, by decide⟩

/-- Claim C6, amended: for a generated text with at least two lines, title
extraction takes exactly the first two lines, removes every hash character
from each (not only the leading markers) and trims surrounding whitespace,
using line 1 as the primary name and line 2 as the localized name. -/
theorem c6_titles_amended (t l0 l1 : List Char) (rest : List (List Char))
    (h : pySplit '\n' t = l0 :: l1 :: rest) :
    extractTitles t =
      Except.ok (pyStrip (removeHash l0), pyStrip (removeHash l1)) := by
  unfold extractTitles
  rw [h]
  rfl

/-- Claim C6, amended, witness: a concrete three-line generated text. -/
theorem c6_amended_witness :
    extractTitles c6wInput = Except.ok ("Dosa".data, "Telugu Dosa".data) :=
  c6_titles_amended c6wInput "# Dosa".data "# Telugu Dosa".data ["body".data] (by rfl)

/-- Claim C7, counterexample: the claim says title extraction never terminates
with an unhandled failure, but on a nonempty generated text with no newline
the subscript `recipe_lines[1]` raises an uncaught `IndexError`. -/
theorem c7_counterexample :
    extractTitles "Pesarattu Dosa Recipe".data = Except.error PyExn.indexError := rfl

/-- Claim C7, amended: whenever the generated text has at least two lines,
title extraction completes without an unhandled failure (at worst the two
lines are not titles and the names are silently wrong); with fewer than two
lines it raises an uncaught `IndexError`. -/
theorem c7_titles_amended (t : List Char) (h : 2 ≤ (pySplit '\n' t).length) :
    ∃ p, extractTitles t = Except.ok p := by
  unfold extractTitles
  rcases hs : pySplit '\n' t with _ | ⟨a, _ | ⟨b, r⟩⟩
  · rw [hs] at h; simp at h
  · rw [hs] at h; simp at h
  · exact ⟨_, rfl⟩

/-- Claim C7, amended, witness: a concrete two-line generated text. -/
theorem c7_witness : ∃ p, extractTitles "# A\n# B".data = Except.ok p :=
  c7_titles_amended "# A\n# B".data (by decide)

/-- Claim C8 says that clicking Generate while the identified ingredient list
is empty shows the upload-first warning and issues no generation request.
The claim describes the clear intent of the code (and the spec scenario), but
the code is wrong there: with an empty ingredient list the `elif` evaluates a
second `st.button` with parameters identical to the one in the `if`, and
Streamlit rejects the duplicate widget with `DuplicateWidgetID` before
`st.warning` runs, so the page run dies with an unhandled error (whether or
not the button was clicked) and the warning is never shown; no generation,
extraction, search or save happens either way.  This theorem evaluates the
code at the failing input. -/
theorem c8_empty_ingredients_crash (genClicked : Bool)
    (genResult : Option (List Char)) (videoOutcome : SearchOutcome)
    (saveClicked : Bool) :
    generateClickFlow genClicked [] genResult videoOutcome saveClicked =
      Except.error PyExn.duplicateWidgetId := by
  cases genClicked <;> rfl

/-- Claim C9: across any operation sequence with deletes interleaved, the ids
assigned by the inserts are strictly increasing (AUTOINCREMENT never reuses an
id), hence unique for the lifetime of the store; each insert stores its
wall-clock timestamp verbatim (reading the row just inserted returns exactly
the supplied timestamp), so whenever the clock readings are non-decreasing the
stored created dates across successive inserts are non-decreasing. -/
theorem c9_autoincrement_monotone (ops : List StoreOp) :
    (assignedIds Store.empty ops).Pairwise (fun a b => a < b) ∧
    (assignedIds Store.empty ops).Nodup ∧
    recordedDates Store.empty ops = insTimestamps ops ∧
    ((insTimestamps ops).Pairwise (fun a b => bytesLe a.data b.data = true) →
      (recordedDates Store.empty ops).Pairwise
        (fun a b => bytesLe a.data b.data = true)) := by
  have h := assignedIds_bounds ops Store.empty
  have hr := recordedDates_eq ops Store.empty wf_empty
  refine ⟨h.2, h.2.imp ?_, hr, ?_⟩
  · intro a b hab
    exact Nat.ne_of_lt hab
  · intro hm
    rw [hr]
    exact hm

/-- Claim C9, witness: insert, delete, insert assigns ids 1 then 2 and records
the two supplied timestamps in order. -/
theorem c9_witness :
    (assignedIds Store.empty opsEx).Pairwise (fun a b => a < b) ∧
    (assignedIds Store.empty opsEx).Nodup ∧
    recordedDates Store.empty opsEx = insTimestamps opsEx ∧
    (recordedDates Store.empty opsEx).Pairwise
      (fun a b => bytesLe a.data b.data = true) := by
  have h := c9_autoincrement_monotone opsEx
  exact ⟨h.1, h.2.1, h.2.2.1, h.2.2.2 (by decide)⟩

/-- Claim C10: delete removes at most the rows whose id matches and leaves
every other row, with all its fields, in place; the only other mutating store
operation, insert, preserves every existing row (reads are pure). -/
theorem c10_frame (s : Store) (op : StoreOp) :
    (∀ r ∈ s.rows, (∀ i, op = StoreOp.del i → r.id ≠ i) →
      r ∈ (applyOp s op).rows) ∧
    (∀ i r, r ∈ (s.delete i).rows → r ∈ s.rows ∧ r.id ≠ i) := by
  constructor
  · intro r hr hdel
    cases op with
    | ins d => exact List.mem_append.2 (Or.inl hr)
    | del i =>
      refine List.mem_filter.2 ⟨hr, ?_⟩
      simp only [bne_iff_ne, ne_eq]
      exact hdel i rfl
  · intro i r hr
    have h := List.mem_filter.1 hr
    refine ⟨h.1, ?_⟩
    simpa using h.2

/-- Claim C10, witness: deleting the absent id 5 keeps the first row of a
two-row store; every row surviving the deletion of id 1 was already present
and has a non-matching id. -/
theorem c10_witness :
    dEx1.toRow 1 ∈ (applyOp sEx2 (StoreOp.del 5)).rows ∧
    dEx2.toRow 2 ∈ sEx2.rows ∧ (dEx2.toRow 2).id ≠ 1 := by
  refine ⟨(c10_frame sEx2 (StoreOp.del 5)).1 (dEx1.toRow 1) (by decide) ?_, ?_⟩
  · intro i hi
    cases hi
    decide
  · exact (c10_frame sEx2 (StoreOp.del 1)).2 1 (dEx2.toRow 2) (by decide)

end FoodVision
